import Mathlib

/-!
# GR86_OS: the I2S sampler sketch (`src/main.cpp`)

A shallow embedding of the firmware's two entry points, `setup()` and `loop()`,
and of the machine arithmetic they use, followed by theorems about the
decimation, the rescaling shift and the text written to the serial port.

Conventions of the embedding.

* `int32_t` / `int` values are mathematical integers (`Int`); the range
  `[-2^31, 2^31)` is the predicate `isInt32`, and every operation that can leave
  the range is followed by an explicit reduction modulo `2^32` (`wrap32`).
  The increment `decim++` is therefore modelled with two's complement
  wrap-around, which is what the target's `add` instruction does.
* The serial port is the stream of characters written so far (`List Char`).
* The I2S driver is an external collaborator: what one call of `i2s_read`
  returns (status, byte count, contents of `i2s_buffer` afterwards) is an input
  of `loop`, and the statuses of `i2s_driver_install` and `i2s_set_pin` are
  inputs of `setup`.
-/

namespace GR86OS

/-! ## Constants of `main.cpp` -/

/-- `static const int FRAMES_PER_READ = 256;` (stereo frames per `i2s_read`). -/
def FRAMES_PER_READ : Nat := 256

/-- `static const int DECIMATE = 8;` (print every Nth frame). -/
def DECIMATE : Int := 8

/-- Number of words of `static int32_t i2s_buffer[FRAMES_PER_READ * 2]`. -/
def I2S_BUFFER_WORDS : Nat := FRAMES_PER_READ * 2

/-- `sizeof(i2s_buffer)`, the byte count requested from `i2s_read`. -/
def I2S_BUFFER_BYTES : Nat := I2S_BUFFER_WORDS * 4

/-- Modelled from the spec: the status with which the driver "reports success" of a
configuration or read operation. The macro `ESP_OK` comes from the ESP-IDF header
`esp_err.h`, which is not part of the repository; there it is 0. -/
def ESP_OK : Int := 0

/-! ## 32-bit machine arithmetic -/

/-- Smallest `int32_t`. -/
def INT32_MIN : Int := -2147483648

/-- Largest `int32_t`. -/
def INT32_MAX : Int := 2147483647

/-- The value is representable as an `int32_t`. -/
def isInt32 (v : Int) : Prop := INT32_MIN ≤ v ∧ v ≤ INT32_MAX

instance (v : Int) : Decidable (isInt32 v) := by
  unfold isInt32; exact inferInstance

/-- Two's complement bit pattern of a word, read as a number in `[0, 2^32)`. -/
def toBits32 (v : Int) : Int := v % 4294967296

/-- Signed value of a 32-bit pattern given as a number in `[0, 2^32)`. -/
def ofBits32 (u : Int) : Int := if u < 2147483648 then u else u - 4294967296

/-- Reduction of an integer to the `int32_t` it is stored as. -/
def wrap32 (x : Int) : Int := ofBits32 (toBits32 x)

/-- The statement `s >>= 8` on an `int32_t`: the bit pattern moves right by eight
places and the eight vacated top bits are copies of the sign bit
(`0xFF000000` when the sign bit is set). -/
def shr8 (v : Int) : Int :=
  let u := toBits32 v
  let low := u / 256
  let fill : Int := if 2147483648 ≤ u then 4278190080 else 0
  ofBits32 (low + fill)

/-! ## The serial port -/

/-- Characters written to `Serial` so far. -/
abbrev Serial := List Char

/-- Modelled from the spec: the text of a "signed decimal integer", as written by
`Serial.print(n)` of the Arduino core's `Print` class (not part of the repository): a
minus sign for a negative value, then the decimal digits of the magnitude. -/
def decimal (v : Int) : List Char :=
  if v < 0 then '-' :: Nat.toDigits 10 v.natAbs else Nat.toDigits 10 v.natAbs

/-- Modelled from the spec: the "line terminator" that ends a text line. The Arduino
core's `println` (not part of the repository) writes carriage return, line feed. -/
def lineEnd : List Char := ['\r', '\n']

/-- `Serial.print(n)` for a signed integer. -/
def printInt (s : Serial) (v : Int) : Serial := s ++ decimal v

/-- `Serial.print(c)` for a character. -/
def printChar (s : Serial) (c : Char) : Serial := s ++ [c]

/-- `Serial.println(n)` for a signed integer. -/
def printlnInt (s : Serial) (v : Int) : Serial := s ++ decimal v ++ lineEnd

/-- `Serial.println(text)` for a string literal. -/
def printlnStr (s : Serial) (t : String) : Serial := s ++ t.toList ++ lineEnd

/-- Number of line terminators in a stream, that is, of complete lines. -/
def countLines (s : Serial) : Nat := s.count '\n'

/-! ## `loop()` -/

/-- What one call of `i2s_read` hands back: its status, the byte count stored
through `&bytes_read`, and the contents of `i2s_buffer` after the call. -/
structure ReadResult where
  err : Int
  bytes_read : Nat
  buffer : List Int

/-- The read a driver can really return: at most `sizeof(i2s_buffer)` bytes,
into a buffer of `FRAMES_PER_READ * 2` words, each an `int32_t`. -/
def ReadResult.WF (rd : ReadResult) : Prop :=
  rd.bytes_read ≤ I2S_BUFFER_BYTES ∧ rd.buffer.length = I2S_BUFFER_WORDS ∧
    ∀ v ∈ rd.buffer, isInt32 v

/-- The state that survives from one call of `loop()` to the next: the
function-local `static int decim` and the serial stream. -/
structure State where
  decim : Int
  serial : Serial
deriving DecidableEq, Repr

/-- The `for (int i = 0; i + 1 < n_samples; i += 2)` loop of `loop()`, entered
at index `i`, with decimation factor `D` (`DECIMATE` in the source).
`Int.tmod` is the remainder of C++ (`%` truncates towards zero). -/
def forLoop (D : Int) (buffer : List Int) (n_samples : Nat) (i : Nat) (st : State) : State :=
  if i + 1 < n_samples then
    let d := st.decim
    let st1 : State := { st with decim := wrap32 (d + 1) }
    if Int.tmod d D ≠ 0 then
      forLoop D buffer n_samples (i + 2) st1
    else
      let s0 := shr8 (buffer.getD i 0)
      let s1 := shr8 (buffer.getD (i + 1) 0)
      let out := printlnInt (printChar (printInt st1.serial s0) ',') s1
      forLoop D buffer n_samples (i + 2) { st1 with serial := out }
  else st
termination_by n_samples - i

/-- The body of `loop()` for a decimation factor `D`: return at once on a driver
error or an empty read, otherwise walk the `n_samples = bytes_read / sizeof(int32_t)`
words in pairs. `bytes_read` is a 32-bit `size_t`, so the quotient is below `2^30` and
its conversion to `int` loses nothing. -/
def loopWith (D : Int) (st : State) (rd : ReadResult) : State :=
  if rd.err ≠ ESP_OK ∨ rd.bytes_read = 0 then st
  else forLoop D rd.buffer (rd.bytes_read / 4) 0 st

/-- `loop()` as compiled: decimation factor `DECIMATE`. -/
def loop (st : State) (rd : ReadResult) : State := loopWith DECIMATE st rd

/-- A successful read that returned exactly the given words. -/
def readOf (ws : List Int) : ReadResult := ⟨ESP_OK, 4 * ws.length, ws⟩

/-! ## `setup()` and the Arduino run-time -/

/-- Where the program is: before `setup()`, in one of the two `while (1)` idle
loops of `setup()`, or in the steady state in which `loop()` is called. -/
inductive Phase where
  | Uninitialized
  | Halted
  | Sampling
deriving DecidableEq, Repr

/-- The I2S driver entry points `setup()` calls. -/
inductive DriverCall where
  | driver_install
  | set_pin
  | set_clk
  | zero_dma_buffer
deriving DecidableEq, Repr

/-- The whole device: phase, the state of `loop()`, and the driver calls made. -/
structure Machine where
  phase : Phase
  st : State
  calls : List DriverCall
deriving DecidableEq, Repr

/-- The device at power-on: nothing written, `decim` holds its initialiser 0. -/
def boot : Machine := ⟨Phase.Uninitialized, ⟨0, []⟩, []⟩

/-- `setup()`, given the statuses returned by `i2s_driver_install` and
`i2s_set_pin`. A failed call prints its message and enters `while (1) delay(1000);`,
which never returns: the machine is `Halted`. -/
def setup (install_status set_pin_status : Int) (m : Machine) : Machine :=
  let calls1 := m.calls ++ [DriverCall.driver_install]
  if install_status ≠ ESP_OK then
    { phase := Phase.Halted,
      st := { m.st with serial := printlnStr m.st.serial "I2S install failed" },
      calls := calls1 }
  else
    let calls2 := calls1 ++ [DriverCall.set_pin]
    if set_pin_status ≠ ESP_OK then
      { phase := Phase.Halted,
        st := { m.st with serial := printlnStr m.st.serial "I2S set_pin failed" },
        calls := calls2 }
    else
      { phase := Phase.Sampling,
        st := { m.st with
          serial := printlnStr m.st.serial "# ready: sending CSV lines as ch0,ch1" },
        calls := calls2 ++ [DriverCall.set_clk, DriverCall.zero_dma_buffer] }

/-- Modelled from the spec: one turn of the control flow "Init → (Read →
Decimate/Rescale → Emit)*" that the Arduino run-time (not part of the repository)
drives after `setup()`: in `Sampling` it calls `loop()` with the next read; a device
halted inside `setup()` only idles in `delay` and `loop()` is not reached. -/
def step (m : Machine) (rd : ReadResult) : Machine :=
  match m.phase with
  | Phase.Sampling => { m with st := loop m.st rd }
  | _ => m

/-- Modelled from the spec: the device's history under the Arduino run-time (not part
of the repository): `setup()` once from power-on, then one turn per read the driver
would deliver. -/
def run (install_status set_pin_status : Int) (reads : List ReadResult) : Machine :=
  reads.foldl step (setup install_status set_pin_status boot)

/-! ## Specification-side descriptions of the output -/

/-- The text of one CSV line for the pair at pair index `k` of a buffer. -/
def pairLine (buffer : List Int) (k : Nat) : List Char :=
  decimal (shr8 (buffer.getD (2 * k) 0)) ++ [','] ++
    decimal (shr8 (buffer.getD (2 * k + 1) 0)) ++ lineEnd

/-- Text written by `m` further iterations of the `for` loop that start at pair
index `j` with counter value `d`. -/
def emitFrom (D : Int) (buffer : List Int) : Nat → Nat → Int → List Char
  | 0, _, _ => []
  | m + 1, j, d =>
    (if Int.tmod d D = 0 then pairLine buffer j else []) ++
      emitFrom D buffer m (j + 1) (wrap32 (d + 1))

/-- Counter value after `m` increments from `d`. -/
def bump : Nat → Int → Int
  | 0, d => d
  | m + 1, d => bump m (wrap32 (d + 1))

/-! ## Lemmas on the machine arithmetic -/

theorem wrap32_of_isInt32 {v : Int} (h : isInt32 v) : wrap32 v = v := by
  unfold isInt32 INT32_MIN INT32_MAX at h
  unfold wrap32 ofBits32 toBits32
  split <;> omega

theorem isInt32_wrap32 (x : Int) : isInt32 (wrap32 x) := by
  unfold isInt32 INT32_MIN INT32_MAX wrap32 ofBits32 toBits32
  split <;> omega

theorem wrap32_succ_wrap32 (x : Int) : wrap32 (wrap32 x + 1) = wrap32 (x + 1) := by
  unfold wrap32 ofBits32 toBits32
  split <;> split <;> split <;> omega

theorem wrap32_emod8 (x : Int) : wrap32 x % 8 = x % 8 := by
  unfold wrap32 ofBits32 toBits32
  split <;> omega

theorem tmod8_eq_zero_iff (d : Int) : Int.tmod d 8 = 0 ↔ d % 8 = 0 := by
  rw [← Int.dvd_iff_tmod_eq_zero, Int.dvd_iff_emod_eq_zero]

theorem shr8_eq_ediv {v : Int} (h : isInt32 v) : shr8 v = v / 256 := by
  unfold isInt32 INT32_MIN INT32_MAX at h
  unfold shr8 ofBits32 toBits32
  simp only []
  split <;> split <;> omega

theorem shr8_range (v : Int) : -8388608 ≤ shr8 v ∧ shr8 v ≤ 8388607 := by
  unfold shr8 ofBits32 toBits32
  simp only []
  split <;> split <;> omega

/-! ## The `for` loop in closed form -/

theorem forLoop_eq (D : Int) (buffer : List Int) (n : Nat) :
    ∀ (m j : Nat) (st : State), n / 2 - j = m →
      forLoop D buffer n (2 * j) st =
        ⟨bump m st.decim, st.serial ++ emitFrom D buffer m j st.decim⟩ := by
  intro m
  induction m with
  | zero =>
    intro j st h
    unfold forLoop
    have : ¬ (2 * j + 1 < n) := by omega
    simp [this, bump, emitFrom]
  | succ m ih =>
    intro j st h
    unfold forLoop
    have h1 : 2 * j + 1 < n := by omega
    have h2 : 2 * j + 2 = 2 * (j + 1) := by ring
    simp only [h1, if_true, h2]
    by_cases hd : Int.tmod st.decim D = 0
    · simp [hd, ih (j + 1) _ (by omega), bump, emitFrom, pairLine, printlnInt, printChar,
        printInt, List.append_assoc]
    · simp [hd, ih (j + 1) _ (by omega), bump, emitFrom]

theorem loopWith_eq_forLoop (D : Int) (st : State) (rd : ReadResult) (hok : rd.err = ESP_OK) :
    loopWith D st rd = forLoop D rd.buffer (rd.bytes_read / 4) 0 st := by
  unfold loopWith
  by_cases h0 : rd.bytes_read = 0
  · have hn : ¬ (0 + 1 < 0 / 4) := by omega
    simp only [h0, or_true, if_true]
    unfold forLoop
    simp
  · simp [hok, h0]

theorem loopWith_eq (D : Int) (st : State) (rd : ReadResult) (hok : rd.err = ESP_OK) :
    loopWith D st rd =
      ⟨bump (rd.bytes_read / 4 / 2) st.decim,
        st.serial ++ emitFrom D rd.buffer (rd.bytes_read / 4 / 2) 0 st.decim⟩ := by
  rw [loopWith_eq_forLoop D st rd hok]
  exact forLoop_eq D rd.buffer (rd.bytes_read / 4) (rd.bytes_read / 4 / 2) 0 st (by omega)

/-! ## The counter -/

theorem bump_add (a b : Nat) : ∀ d : Int, bump (a + b) d = bump b (bump a d) := by
  induction a with
  | zero => intro d; simp [bump]
  | succ a ih =>
    intro d
    have : a + 1 + b = (a + b) + 1 := by omega
    rw [this]
    simp only [bump]
    exact ih _

theorem bump_eq_wrap32 (m : Nat) : ∀ d : Int, isInt32 d → bump m d = wrap32 (d + m) := by
  induction m with
  | zero => intro d hd; simp [bump, wrap32_of_isInt32 hd]
  | succ m ih =>
    intro d _
    simp only [bump]
    rw [ih _ (isInt32_wrap32 _)]
    unfold wrap32 ofBits32 toBits32
    push_cast
    split <;> split <;> split <;> omega

/-! ## The emitted text -/

theorem emitFrom_congr (D : Int) (b1 b2 : List Int) :
    ∀ (m j1 j2 : Nat) (d : Int), (∀ k, k < m → pairLine b1 (j1 + k) = pairLine b2 (j2 + k)) →
      emitFrom D b1 m j1 d = emitFrom D b2 m j2 d := by
  intro m
  induction m with
  | zero => intro j1 j2 d _; simp [emitFrom]
  | succ m ih =>
    intro j1 j2 d h
    simp only [emitFrom]
    have h0 := h 0 (by omega)
    simp only [Nat.add_zero] at h0
    rw [h0, ih (j1 + 1) (j2 + 1) _ ?_]
    intro k hk
    have := h (k + 1) (by omega)
    simpa [Nat.add_assoc, Nat.add_comm 1 k] using this

theorem emitFrom_add (D : Int) (buffer : List Int) (a b : Nat) :
    ∀ (j : Nat) (d : Int), emitFrom D buffer (a + b) j d =
      emitFrom D buffer a j d ++ emitFrom D buffer b (j + a) (bump a d) := by
  induction a with
  | zero => intro j d; simp [emitFrom, bump]
  | succ a ih =>
    intro j d
    have : a + 1 + b = (a + b) + 1 := by omega
    rw [this]
    simp only [emitFrom, bump, List.append_assoc]
    rw [ih (j + 1) _]
    have : j + 1 + a = j + (a + 1) := by omega
    rw [this]

theorem emitFrom_eight (buffer : List Int) :
    ∀ (m j : Nat) (d : Int), emitFrom 8 buffer m j d =
      ((List.range m).filter (fun k : Nat => (d + (k : Int)) % 8 = 0)).flatMap
        (fun k => pairLine buffer (j + k)) := by
  intro m
  induction m with
  | zero => intro j d; simp [emitFrom]
  | succ m ih =>
    intro j d
    have hf : (List.range m).filter ((fun k : Nat => decide ((d + (k : Int)) % 8 = 0)) ∘ Nat.succ)
        = (List.range m).filter (fun k : Nat => decide ((wrap32 (d + 1) + (k : Int)) % 8 = 0)) := by
      apply List.filter_congr
      intro k _
      have h1 := wrap32_emod8 (d + 1)
      simp only [Function.comp, Nat.succ_eq_add_one, decide_eq_decide]
      push_cast
      omega
    have hg : ∀ L : List Nat, L.flatMap (fun k => pairLine buffer (j + 1 + k)) =
        (L.map Nat.succ).flatMap (fun k => pairLine buffer (j + k)) := by
      intro L
      rw [List.flatMap_map]
      congr 1
      funext k
      simp only [Nat.succ_eq_add_one]
      congr 1
      omega
    have hstep : ((List.range m).map Nat.succ).filter (fun k : Nat => decide ((d + (k : Int)) % 8 = 0))
        = ((List.range m).filter (fun k : Nat => decide ((wrap32 (d + 1) + (k : Int)) % 8 = 0))).map
            Nat.succ := by
      rw [List.filter_map, hf]
    simp only [emitFrom]
    rw [ih (j + 1) _, List.range_succ_eq_map, hg, ← hstep]
    by_cases hd : Int.tmod d 8 = 0
    · have hd2 : d % 8 = 0 := (tmod8_eq_zero_iff d).1 hd
      have hd3 : (d + ((0 : Nat) : Int)) % 8 = 0 := by simpa using hd2
      rw [if_pos hd, List.filter_cons_of_pos (by simpa using hd3), List.flatMap_cons]
      rfl
    · have hd2 : ¬ d % 8 = 0 := fun h => hd ((tmod8_eq_zero_iff d).2 h)
      have hd3 : ¬ (d + ((0 : Nat) : Int)) % 8 = 0 := by simpa using hd2
      rw [if_neg hd, List.filter_cons_of_neg (by simpa using hd3), List.nil_append]

/-! ## Lines in the stream -/

theorem digitChar_ne_newline (n : Nat) : Nat.digitChar n ≠ '\n' := by
  obtain h | h := Nat.lt_or_ge n 16
  · interval_cases n <;> decide
  · obtain ⟨k, rfl⟩ := Nat.exists_eq_add_of_le h
    have e : Nat.digitChar (16 + k) = '*' := by
      unfold Nat.digitChar
      simp only [show ∀ m, m < 16 → ¬ (16 + k = m) from fun m hm => by omega, Nat.reduceLT,
        if_false]
    rw [e]; decide

theorem toDigitsCore_no_newline (b : Nat) :
    ∀ (fuel n : Nat) (ds : List Char), '\n' ∉ ds → '\n' ∉ Nat.toDigitsCore b fuel n ds := by
  intro fuel
  induction fuel with
  | zero => intro n ds h; simpa [Nat.toDigitsCore] using h
  | succ fuel ih =>
    intro n ds h
    have hc : '\n' ∉ Nat.digitChar (n % b) :: ds := by
      intro hm
      rcases List.mem_cons.1 hm with h1 | h1
      · exact digitChar_ne_newline _ h1.symm
      · exact h h1
    simp only [Nat.toDigitsCore]
    split
    · exact hc
    · exact ih _ _ hc

theorem decimal_no_newline (v : Int) : '\n' ∉ decimal v := by
  have h : ∀ n, '\n' ∉ Nat.toDigits 10 n := fun n =>
    toDigitsCore_no_newline 10 _ _ [] (by simp)
  unfold decimal
  split
  · intro hm
    rcases List.mem_cons.1 hm with h1 | h1
    · exact absurd h1 (by decide)
    · exact h _ h1
  · exact h _

theorem countLines_append (a b : Serial) : countLines (a ++ b) = countLines a + countLines b := by
  unfold countLines
  exact List.count_append _ _ _

theorem countLines_decimal (v : Int) : countLines (decimal v) = 0 :=
  List.count_eq_zero.2 (decimal_no_newline v)

theorem countLines_pairLine (buffer : List Int) (k : Nat) : countLines (pairLine buffer k) = 1 := by
  unfold pairLine
  rw [countLines_append, countLines_append, countLines_append, countLines_decimal,
    countLines_decimal]
  decide

theorem countLines_flatMap_pairLine (buffer : List Int) (j : Nat) (ks : List Nat) :
    countLines (ks.flatMap (fun k => pairLine buffer (j + k))) = ks.length := by
  induction ks with
  | nil => simp [countLines]
  | cons k ks ih =>
    rw [List.flatMap_cons, countLines_append, ih, countLines_pairLine, List.length_cons]
    omega

theorem count_kept_128 (c : Int) :
    ((List.range 128).filter (fun k : Nat => (c + (k : Int)) % 8 = 0)).length = 16 := by
  have hc : (List.range 128).filter (fun k : Nat => decide ((c + (k : Int)) % 8 = 0)) =
      (List.range 128).filter (fun k : Nat => decide ((c % 8 + (k : Int)) % 8 = 0)) := by
    apply List.filter_congr
    intro k _
    simp only [decide_eq_decide]
    omega
  rw [hc]
  have h0 : 0 ≤ c % 8 := by omega
  have h8 : c % 8 < 8 := by omega
  generalize c % 8 = r at h0 h8
  interval_cases r <;> decide

/-! ## Properties of `loop()` and `setup()` -/

/-- C1: for a successful read (of any length) and any counter value `c` at entry, `loop()` appends
to the serial stream exactly the lines of the pair indices `k < n_samples / 2` with
`(c + k) mod 8 = 0`, in increasing order of `k`; the line of pair `k` is the decimal
text of `buffer[2k] >> 8`, a comma, the decimal text of `buffer[2k+1] >> 8` and the
line terminator. The number of line terminators grows by the number of such `k`, and
with the counter at 0 the first pair of a batch is the first line written. -/
theorem loop_emits_every_eighth_pair (st : State) (rd : ReadResult) (hok : rd.err = ESP_OK) :
    (loop st rd).serial = st.serial ++
      ((List.range (rd.bytes_read / 4 / 2)).filter
          (fun k : Nat => (st.decim + (k : Int)) % 8 = 0)).flatMap
        (fun k => decimal (shr8 (rd.buffer.getD (2 * k) 0)) ++ [','] ++
          decimal (shr8 (rd.buffer.getD (2 * k + 1) 0)) ++ ['\r', '\n'])
    ∧ countLines (loop st rd).serial = countLines st.serial +
      ((List.range (rd.bytes_read / 4 / 2)).filter
          (fun k : Nat => (st.decim + (k : Int)) % 8 = 0)).length
    ∧ (st.decim = 0 → 2 ≤ rd.bytes_read / 4 → ∃ rest : List Char,
        (loop st rd).serial = st.serial ++
          (decimal (shr8 (rd.buffer.getD 0 0)) ++ [','] ++
            decimal (shr8 (rd.buffer.getD 1 0)) ++ ['\r', '\n']) ++ rest) := by
  have key : (loop st rd).serial = st.serial ++
      ((List.range (rd.bytes_read / 4 / 2)).filter
          (fun k : Nat => (st.decim + (k : Int)) % 8 = 0)).flatMap
        (fun k => pairLine rd.buffer (0 + k)) := by
    unfold loop DECIMATE
    rw [loopWith_eq 8 st rd hok, emitFrom_eight]
  refine ⟨?_, ?_, ?_⟩
  · rw [key]
    simp only [pairLine, lineEnd, Nat.zero_add]
  · rw [key, countLines_append, countLines_flatMap_pairLine]
  · intro hc hn
    obtain ⟨m, hm⟩ : ∃ m, rd.bytes_read / 4 / 2 = m + 1 := ⟨rd.bytes_read / 4 / 2 - 1, by omega⟩
    rw [key, hm, List.range_succ_eq_map, hc,
      List.filter_cons_of_pos (by simp), List.flatMap_cons]
    refine ⟨((List.map Nat.succ (List.range m)).filter
      (fun k : Nat => decide (((0 : Int) + (k : Int)) % 8 = 0))).flatMap
        (fun k => pairLine rd.buffer (0 + k)), ?_⟩
    rw [List.append_assoc]
    rfl

/-- C2: on every `int32_t` the shift `>> 8` of `loop()` is the floor of `v / 256`;
it sends -256 to -1, 256 to 1, 0 to 0 and `INT32_MIN` to -8388608. -/
theorem shr8_is_floor_div_256 :
    (∀ v : Int, isInt32 v → shr8 v = ⌊(v : ℚ) / 256⌋) ∧
      shr8 (-256) = -1 ∧ shr8 256 = 1 ∧ shr8 0 = 0 ∧ shr8 INT32_MIN = -8388608 := by
  refine ⟨?_, by decide, by decide, by decide, by decide⟩
  intro v hv
  rw [shr8_eq_ediv hv]
  have := Rat.floor_intCast_div_natCast v 256
  simpa using this.symm

/-- C4: with the compiled decimation factor 8, a successful read holding exactly 128
complete pairs makes `loop()` write exactly 16 lines, whatever the counter and the
stream were at entry. -/
theorem loop_128_pairs_writes_16_lines (st : State) (rd : ReadResult) (hok : rd.err = ESP_OK)
    (hpairs : rd.bytes_read / 4 / 2 = 128) :
    DECIMATE = 8 ∧ countLines (loop st rd).serial = countLines st.serial + 16 := by
  refine ⟨rfl, ?_⟩
  unfold loop DECIMATE
  rw [loopWith_eq 8 st rd hok, emitFrom_eight, countLines_append, countLines_flatMap_pairLine,
    hpairs, count_kept_128]

/-! ## Reads that agree on the words `loop()` looks at -/

theorem pairLine_congr (b1 b2 : List Int) (k1 k2 : Nat)
    (h0 : b1.getD (2 * k1) 0 = b2.getD (2 * k2) 0)
    (h1 : b1.getD (2 * k1 + 1) 0 = b2.getD (2 * k2 + 1) 0) :
    pairLine b1 k1 = pairLine b2 k2 := by
  unfold pairLine
  rw [h0, h1]

theorem loopWith_congr (D : Int) (st : State) (rd1 rd2 : ReadResult)
    (h1 : rd1.err = ESP_OK) (h2 : rd2.err = ESP_OK)
    (hn : rd1.bytes_read / 4 / 2 = rd2.bytes_read / 4 / 2)
    (hb : ∀ i, i < 2 * (rd1.bytes_read / 4 / 2) → rd1.buffer.getD i 0 = rd2.buffer.getD i 0) :
    loopWith D st rd1 = loopWith D st rd2 := by
  rw [loopWith_eq D st rd1 h1, loopWith_eq D st rd2 h2, ← hn]
  congr 2
  apply emitFrom_congr
  intro k hk
  exact pairLine_congr _ _ _ _ (hb _ (by omega)) (hb _ (by omega))

theorem getD_set_of_ne (l : List Int) (i j : Nat) (w : Int) (h : i ≠ j) :
    (l.set i w).getD j 0 = l.getD j 0 := by
  simp [List.getD_eq_getElem?_getD, List.getElem?_set_ne h]

theorem readOf_pairs (ws : List Int) : (readOf ws).bytes_read / 4 / 2 = ws.length / 2 := by
  simp [readOf]

/-- C3 (as stated, refuted): with decimation factor 1 and the counter at 0, the batch
`[100, -200, 300, -400]` does not produce the lines `0,-2` and `1,-2`: the first line
written is `0,-1`, because `-200 >> 8` is -1. -/
theorem scenario_output_is_not_as_stated :
    (loopWith 1 ⟨0, []⟩ (readOf [100, -200, 300, -400])).serial ≠ "0,-2\r\n1,-2\r\n".toList ∧
    (loopWith 1 ⟨0, []⟩ (readOf [100, -200, 300, -400])).serial ≠ "0,-2\n1,-2\n".toList ∧
    (loopWith 1 ⟨0, []⟩ (readOf [100, -200, 300, -400])).serial.take 4 = "0,-1".toList ∧
    shr8 (-200) = -1 := by
  rw [loopWith_eq 1 _ _ rfl]
  decide

/-- C3 (amended): with decimation factor 1 and the counter at 0, the batch
`[100, -200, 300, -400]` makes the loop write exactly two lines, `0,-1` and then
`1,-2`, and leaves the counter at 2. -/
theorem scenario_factor_one (s : Serial) :
    loopWith 1 ⟨0, s⟩ (readOf [100, -200, 300, -400]) = ⟨2, s ++ "0,-1\r\n1,-2\r\n".toList⟩ ∧
    countLines (loopWith 1 ⟨0, s⟩ (readOf [100, -200, 300, -400])).serial = countLines s + 2 := by
  have h : loopWith 1 ⟨0, s⟩ (readOf [100, -200, 300, -400]) =
      ⟨2, s ++ "0,-1\r\n1,-2\r\n".toList⟩ := by
    rw [loopWith_eq 1 _ _ rfl]
    have e1 : bump ((readOf [100, -200, 300, -400]).bytes_read / 4 / 2) 0 = 2 := by decide
    have e2 : emitFrom 1 (readOf [100, -200, 300, -400]).buffer
        ((readOf [100, -200, 300, -400]).bytes_read / 4 / 2) 0 0 = "0,-1\r\n1,-2\r\n".toList := by
      decide
    simp only [e1, e2]
  refine ⟨h, ?_⟩
  rw [h]
  simp only [countLines_append]
  congr 1

/-- C5: a read that reports a driver error, or zero bytes, makes `loop()` return
with the counter and the serial stream untouched, whatever the buffer holds; so every
later call of `loop()`, and every history of calls, behaves as if that read had not
happened. -/
theorem loop_failed_read_is_skipped (st : State) (rd : ReadResult)
    (hfail : rd.err ≠ ESP_OK ∨ rd.bytes_read = 0) :
    loop st rd = st ∧
    (∀ later : ReadResult, loop (loop st rd) later = loop st later) ∧
    (∀ (s0 : State) (before after : List ReadResult),
      (before ++ rd :: after).foldl loop s0 = (before ++ after).foldl loop s0) := by
  have h : ∀ s : State, loop s rd = s := by
    intro s
    unfold loop loopWith
    rw [if_pos hfail]
  refine ⟨h st, ?_, ?_⟩
  · intro later
    rw [h st]
  · intro s0 before after
    rw [List.foldl_append, List.foldl_append, List.foldl_cons, h]

/-- C6: when a successful read holds an odd number `n` of words, `loop()` handles
the `(n - 1) / 2` complete pairs only: its result is that of any successful read
holding the same first `n - 1` words and nothing more, it is the same whatever value
the last word has, and the counter advances by `(n - 1) / 2`. -/
theorem loop_odd_batch_ignores_last_word (st : State) (rd : ReadResult)
    (hok : rd.err = ESP_OK) (hodd : rd.bytes_read / 4 % 2 = 1) :
    (∀ rd2 : ReadResult, rd2.err = ESP_OK → rd2.bytes_read / 4 = rd.bytes_read / 4 - 1 →
      (∀ i, i < rd.bytes_read / 4 - 1 → rd2.buffer.getD i 0 = rd.buffer.getD i 0) →
      loop st rd = loop st rd2) ∧
    (∀ w : Int, loop st { rd with buffer := rd.buffer.set (rd.bytes_read / 4 - 1) w } =
      loop st rd) ∧
    (isInt32 st.decim →
      (loop st rd).decim = wrap32 (st.decim + (((rd.bytes_read / 4 - 1) / 2 : Nat) : Int))) := by
  refine ⟨?_, ?_, ?_⟩
  · intro rd2 hok2 hn hb
    unfold loop
    apply loopWith_congr DECIMATE st rd rd2 hok hok2 (by omega)
    intro i hi
    exact (hb i (by omega)).symm
  · intro w
    unfold loop
    refine loopWith_congr DECIMATE st
      { rd with buffer := rd.buffer.set (rd.bytes_read / 4 - 1) w } rd hok hok rfl ?_
    intro i hi
    exact getD_set_of_ne _ _ _ _ (by simp only at hi; omega)
  · intro hc
    unfold loop
    rw [loopWith_eq DECIMATE st rd hok]
    simp only
    rw [bump_eq_wrap32 _ _ hc]
    congr 3
    omega

/-- C7: if driver installation fails, the device prints the single line
`I2S install failed`, makes no other driver call and is halted; if installation
succeeds and pin binding fails, it prints the single line `I2S set_pin failed` and is
halted. Whatever reads the driver could deliver afterwards, nothing more is written,
and a halted device stays halted: `loop()` is never run. -/
theorem setup_failure_halts_for_good (install_status set_pin_status : Int)
    (reads : List ReadResult) :
    (install_status ≠ ESP_OK →
      run install_status set_pin_status reads =
        ⟨Phase.Halted, ⟨0, "I2S install failed\r\n".toList⟩, [DriverCall.driver_install]⟩) ∧
    (install_status = ESP_OK → set_pin_status ≠ ESP_OK →
      run install_status set_pin_status reads =
        ⟨Phase.Halted, ⟨0, "I2S set_pin failed\r\n".toList⟩,
          [DriverCall.driver_install, DriverCall.set_pin]⟩) ∧
    (install_status ≠ ESP_OK ∨ set_pin_status ≠ ESP_OK →
      countLines (run install_status set_pin_status reads).st.serial = 1) ∧
    (∀ (m : Machine) (rd : ReadResult), m.phase = Phase.Halted → step m rd = m) := by
  have hstep : ∀ (m : Machine) (rd : ReadResult), m.phase = Phase.Halted → step m rd = m := by
    intro m rd hm
    unfold step
    rw [hm]
  have hrun : ∀ (rs : List ReadResult) (m : Machine), m.phase = Phase.Halted →
      rs.foldl step m = m := by
    intro rs
    induction rs with
    | nil => intro m _; rfl
    | cons r rs ih =>
      intro m hm
      rw [List.foldl_cons, hstep m r hm]
      exact ih m hm
  have h1 : install_status ≠ ESP_OK →
      run install_status set_pin_status reads =
        ⟨Phase.Halted, ⟨0, "I2S install failed\r\n".toList⟩, [DriverCall.driver_install]⟩ := by
    intro hi
    have hs : setup install_status set_pin_status boot =
        ⟨Phase.Halted, ⟨0, "I2S install failed\r\n".toList⟩, [DriverCall.driver_install]⟩ := by
      unfold setup
      simp only [hi, ne_eq, not_false_eq_true, if_true]
      rfl
    unfold run
    rw [hs]
    exact hrun _ _ rfl
  have h2 : install_status = ESP_OK → set_pin_status ≠ ESP_OK →
      run install_status set_pin_status reads =
        ⟨Phase.Halted, ⟨0, "I2S set_pin failed\r\n".toList⟩,
          [DriverCall.driver_install, DriverCall.set_pin]⟩ := by
    intro hi hp
    have hs : setup install_status set_pin_status boot =
        ⟨Phase.Halted, ⟨0, "I2S set_pin failed\r\n".toList⟩,
          [DriverCall.driver_install, DriverCall.set_pin]⟩ := by
      unfold setup
      simp only [hi, hp, ne_eq, not_true_eq_false, not_false_eq_true, if_true, if_false]
      rfl
    unfold run
    rw [hs]
    exact hrun _ _ rfl
  refine ⟨h1, h2, ?_, hstep⟩
  intro h
  by_cases hi : install_status = ESP_OK
  · have hp : set_pin_status ≠ ESP_OK := by
      rcases h with h | h
      · exact absurd hi h
      · exact h
    rw [h2 hi hp]
    decide
  · rw [h1 hi]
    decide

/-- C8 (as stated, refuted): the counter is a 32-bit `int`; from 2147483647 a full
successful read of 512 words (256 pairs) leaves it at -2147483393, which is neither
`c + 256` nor greater than or equal to `c`. -/
theorem counter_wraps_past_int32_max :
    isInt32 2147483647 ∧
    (⟨ESP_OK, 2048, List.replicate 512 0⟩ : ReadResult).WF ∧
    (loop ⟨2147483647, []⟩ ⟨ESP_OK, 2048, List.replicate 512 0⟩).decim = -2147483393 ∧
    (loop ⟨2147483647, []⟩ ⟨ESP_OK, 2048, List.replicate 512 0⟩).decim ≠
      2147483647 + ((2048 / 4 / 2 : Nat) : Int) ∧
    ¬ (2147483647 ≤ (loop ⟨2147483647, []⟩ ⟨ESP_OK, 2048, List.replicate 512 0⟩).decim) := by
  have h : (loop ⟨2147483647, []⟩ ⟨ESP_OK, 2048, List.replicate 512 0⟩).decim = -2147483393 := by
    unfold loop
    rw [loopWith_eq DECIMATE _ _ rfl]
    simp only
    rw [bump_eq_wrap32 _ _ (by decide)]
    decide
  have hwf : (⟨ESP_OK, 2048, List.replicate 512 0⟩ : ReadResult).WF := by
    refine ⟨by decide, List.length_replicate 512 0, ?_⟩
    intro v hv
    rw [List.eq_of_mem_replicate hv]
    decide
  rw [h]
  exact ⟨by decide, hwf, rfl, by decide, by decide⟩

/-- C8 (amended): the counter is advanced once per pair examined, emitted or not,
in 32-bit arithmetic: after a successful read of `n` words it holds `c + n / 2` reduced
to an `int32_t`; as long as `c + n / 2` does not exceed `INT32_MAX` that is `c + n / 2`
itself, which is at least `c`. -/
theorem loop_counter_advance (st : State) (rd : ReadResult) (hc : isInt32 st.decim)
    (hok : rd.err = ESP_OK) :
    (loop st rd).decim = wrap32 (st.decim + ((rd.bytes_read / 4 / 2 : Nat) : Int)) ∧
    (st.decim + ((rd.bytes_read / 4 / 2 : Nat) : Int) ≤ INT32_MAX →
      (loop st rd).decim = st.decim + ((rd.bytes_read / 4 / 2 : Nat) : Int) ∧
      st.decim ≤ (loop st rd).decim) := by
  have h : (loop st rd).decim = wrap32 (st.decim + ((rd.bytes_read / 4 / 2 : Nat) : Int)) := by
    unfold loop
    rw [loopWith_eq DECIMATE st rd hok]
    exact bump_eq_wrap32 _ _ hc
  refine ⟨h, ?_⟩
  intro hle
  have hin : isInt32 (st.decim + ((rd.bytes_read / 4 / 2 : Nat) : Int)) := by
    unfold isInt32 at hc ⊢
    constructor
    · have := hc.1
      omega
    · exact hle
  rw [h, wrap32_of_isInt32 hin]
  exact ⟨rfl, by omega⟩

/-- C9: if batch `A` has an even number of words, running `loop()` on a read of `A`
and then on a read of `B` leaves the same counter and the same serial stream as
running `loop()` once on a read of `A` followed by `B`. -/
theorem loop_split_batches (st : State) (A B : List Int) (heven : A.length % 2 = 0) :
    loop (loop st (readOf A)) (readOf B) = loop st (readOf (A ++ B)) := by
  unfold loop
  rw [loopWith_eq DECIMATE st (readOf A) rfl, loopWith_eq DECIMATE _ (readOf B) rfl,
    loopWith_eq DECIMATE st (readOf (A ++ B)) rfl, readOf_pairs, readOf_pairs, readOf_pairs]
  have hlen : (A ++ B).length / 2 = A.length / 2 + B.length / 2 := by
    rw [List.length_append]
    omega
  have hA : emitFrom DECIMATE (A ++ B) (A.length / 2) 0 st.decim =
      emitFrom DECIMATE A (A.length / 2) 0 st.decim := by
    apply emitFrom_congr
    intro k hk
    apply pairLine_congr
    · exact List.getD_append _ _ _ _ (by omega)
    · exact List.getD_append _ _ _ _ (by omega)
  have hB : ∀ d, emitFrom DECIMATE (A ++ B) (B.length / 2) (0 + A.length / 2) d =
      emitFrom DECIMATE B (B.length / 2) 0 d := by
    intro d
    apply emitFrom_congr
    intro k _
    apply pairLine_congr
    · rw [List.getD_append_right _ _ _ _ (by omega)]
      congr 1
      omega
    · rw [List.getD_append_right _ _ _ _ (by omega)]
      congr 1
      omega
  simp only [readOf]
  rw [hlen, bump_add, emitFrom_add, hA, hB, List.append_assoc]

/-- C10: whatever word is in the buffer, the value `v >> 8` that `loop()` prints lies
in the signed 24-bit range; and what any call of `loop()` appends to the stream is a
sequence of lines `a,b` whose values `a` and `b` all lie in that range. -/
theorem shr8_in_int24_range :
    (∀ v : Int, -8388608 ≤ shr8 v ∧ shr8 v ≤ 8388607) ∧
    (∀ (st : State) (rd : ReadResult), ∃ vals : List (Int × Int),
      (loop st rd).serial = st.serial ++
        vals.flatMap (fun p => decimal p.1 ++ [','] ++ decimal p.2 ++ ['\r', '\n']) ∧
      ∀ p ∈ vals, (-8388608 ≤ p.1 ∧ p.1 ≤ 8388607) ∧ (-8388608 ≤ p.2 ∧ p.2 ≤ 8388607)) := by
  refine ⟨shr8_range, ?_⟩
  intro st rd
  by_cases hok : rd.err = ESP_OK
  · refine ⟨((List.range (rd.bytes_read / 4 / 2)).filter
        (fun k : Nat => (st.decim + (k : Int)) % 8 = 0)).map
          (fun k => (shr8 (rd.buffer.getD (2 * (0 + k)) 0),
            shr8 (rd.buffer.getD (2 * (0 + k) + 1) 0))), ?_, ?_⟩
    · unfold loop DECIMATE
      rw [loopWith_eq 8 st rd hok, emitFrom_eight, List.flatMap_map]
      rfl
    · intro p hp
      obtain ⟨k, _, rfl⟩ := List.mem_map.1 hp
      exact ⟨shr8_range _, shr8_range _⟩
  · refine ⟨[], ?_, ?_⟩
    · unfold loop loopWith
      rw [if_pos (Or.inl hok)]
      simp
    · intro p hp
      cases hp

/-! ## Instances of the conditional theorems -/

/-- Instance of C1: counter at 0, twelve pairs `(256 (k + 1), -256 (k + 1))`: pairs 0
and 8 are written, pair 0 first. -/
theorem loop_emits_every_eighth_pair_witness :
    (readOf [256, -256, 512, -512, 768, -768, 1024, -1024, 1280, -1280,
      1536, -1536, 1792, -1792, 2048, -2048, 2304, -2304, 2560, -2560, 2816, -2816, 3072, -3072]).err = ESP_OK ∧
    (⟨0, []⟩ : State).decim = 0 ∧
    2 ≤ (readOf [256, -256, 512, -512, 768, -768, 1024, -1024, 1280, -1280,
      1536, -1536, 1792, -1792, 2048, -2048, 2304, -2304, 2560, -2560, 2816, -2816, 3072, -3072]).bytes_read / 4 ∧
    (loop ⟨0, []⟩ (readOf [256, -256, 512, -512, 768, -768, 1024, -1024, 1280, -1280,
      1536, -1536, 1792, -1792, 2048, -2048, 2304, -2304, 2560, -2560, 2816, -2816, 3072, -3072])).serial =
      "1,-1\r\n9,-9\r\n".toList ∧
    ∃ rest : List Char, (loop ⟨0, []⟩ (readOf [256, -256, 512, -512, 768, -768, 1024, -1024, 1280, -1280,
      1536, -1536, 1792, -1792, 2048, -2048, 2304, -2304, 2560, -2560, 2816, -2816, 3072, -3072])).serial =
      [] ++ (decimal (shr8 256) ++ [','] ++ decimal (shr8 (-256)) ++ ['\r', '\n']) ++ rest :=
  ⟨rfl, rfl, by decide,
    (loop_emits_every_eighth_pair ⟨0, []⟩ (readOf [256, -256, 512, -512, 768, -768, 1024, -1024, 1280, -1280,
      1536, -1536, 1792, -1792, 2048, -2048, 2304, -2304, 2560, -2560, 2816, -2816, 3072, -3072]) rfl).1.trans (by decide),
    (loop_emits_every_eighth_pair ⟨0, []⟩ (readOf [256, -256, 512, -512, 768, -768, 1024, -1024, 1280, -1280,
      1536, -1536, 1792, -1792, 2048, -2048, 2304, -2304, 2560, -2560, 2816, -2816, 3072, -3072]) rfl).2.2 rfl (by decide)⟩

/-- Instance of C2 at the word -200. -/
theorem shr8_is_floor_div_256_witness :
    isInt32 (-200) ∧ shr8 (-200) = ⌊((-200 : Int) : ℚ) / 256⌋ :=
  ⟨by decide, shr8_is_floor_div_256.1 (-200) (by decide)⟩

/-- Instance of C4: 1024 bytes read, counter at 3. -/
theorem loop_128_pairs_writes_16_lines_witness :
    (⟨ESP_OK, 1024, List.replicate 512 0⟩ : ReadResult).err = ESP_OK ∧
    (⟨ESP_OK, 1024, List.replicate 512 0⟩ : ReadResult).bytes_read / 4 / 2 = 128 ∧
    countLines (loop ⟨3, []⟩ ⟨ESP_OK, 1024, List.replicate 512 0⟩).serial = 16 :=
  ⟨rfl, rfl,
    (loop_128_pairs_writes_16_lines ⟨3, []⟩ ⟨ESP_OK, 1024, List.replicate 512 0⟩ rfl rfl).2⟩

/-- Instance of C5: the driver reports -1 for a buffer full of sevens. -/
theorem loop_failed_read_is_skipped_witness :
    ((⟨-1, 2048, List.replicate 512 7⟩ : ReadResult).err ≠ ESP_OK ∨
      (⟨-1, 2048, List.replicate 512 7⟩ : ReadResult).bytes_read = 0) ∧
    loop ⟨5, "0,0\r\n".toList⟩ ⟨-1, 2048, List.replicate 512 7⟩ = ⟨5, "0,0\r\n".toList⟩ :=
  ⟨Or.inl (by decide),
    (loop_failed_read_is_skipped ⟨5, "0,0\r\n".toList⟩ ⟨-1, 2048, List.replicate 512 7⟩
      (Or.inl (by decide))).1⟩

/-- Instance of C6: three words read; the third is replaced by 99. -/
theorem loop_odd_batch_ignores_last_word_witness :
    (⟨ESP_OK, 12, [256, 512, 768]⟩ : ReadResult).err = ESP_OK ∧
    (⟨ESP_OK, 12, [256, 512, 768]⟩ : ReadResult).bytes_read / 4 % 2 = 1 ∧
    loop ⟨0, []⟩ ⟨ESP_OK, 12, [256, 512, 99]⟩ = loop ⟨0, []⟩ ⟨ESP_OK, 12, [256, 512, 768]⟩ ∧
    loop ⟨0, []⟩ ⟨ESP_OK, 12, [256, 512, 768]⟩ = loop ⟨0, []⟩ ⟨ESP_OK, 8, [256, 512]⟩ ∧
    isInt32 (⟨0, []⟩ : State).decim ∧
    (loop ⟨0, []⟩ ⟨ESP_OK, 12, [256, 512, 768]⟩).decim = 1 :=
  ⟨rfl, rfl,
    (loop_odd_batch_ignores_last_word ⟨0, []⟩ ⟨ESP_OK, 12, [256, 512, 768]⟩ rfl rfl).2.1 99,
    (loop_odd_batch_ignores_last_word ⟨0, []⟩ ⟨ESP_OK, 12, [256, 512, 768]⟩ rfl rfl).1
      ⟨ESP_OK, 8, [256, 512]⟩ rfl rfl (by decide),
    by decide,
    ((loop_odd_batch_ignores_last_word ⟨0, []⟩ ⟨ESP_OK, 12, [256, 512, 768]⟩ rfl rfl).2.2
      (by decide)).trans (by decide)⟩

/-- Instance of C7: installation reports -1; two full reads would follow. -/
theorem setup_failure_halts_for_good_witness :
    (-1 : Int) ≠ ESP_OK ∧
    run (-1) 0 [⟨ESP_OK, 2048, List.replicate 512 256⟩, ⟨ESP_OK, 2048, List.replicate 512 256⟩] =
      ⟨Phase.Halted, ⟨0, "I2S install failed\r\n".toList⟩, [DriverCall.driver_install]⟩ :=
  ⟨by decide,
    (setup_failure_halts_for_good (-1) 0
      [⟨ESP_OK, 2048, List.replicate 512 256⟩, ⟨ESP_OK, 2048, List.replicate 512 256⟩]).1
      (by decide)⟩

/-- Instance of C8 (amended): counter at 7, four words read. -/
theorem loop_counter_advance_witness :
    isInt32 (⟨7, []⟩ : State).decim ∧ (readOf [1, 2, 3, 4]).err = ESP_OK ∧
    (loop ⟨7, []⟩ (readOf [1, 2, 3, 4])).decim = 9 :=
  ⟨by decide, rfl,
    ((loop_counter_advance ⟨7, []⟩ (readOf [1, 2, 3, 4]) (by decide) rfl).2 (by decide)).1⟩

/-- Instance of C10: the words `INT32_MIN` and `INT32_MAX` read with the counter at 0. -/
theorem shr8_in_int24_range_witness :
    ∃ vals : List (Int × Int),
      (loop ⟨0, []⟩ (readOf [INT32_MIN, INT32_MAX])).serial = [] ++
        vals.flatMap (fun p => decimal p.1 ++ [','] ++ decimal p.2 ++ ['\r', '\n']) ∧
      ∀ p ∈ vals, (-8388608 ≤ p.1 ∧ p.1 ≤ 8388607) ∧ (-8388608 ≤ p.2 ∧ p.2 ≤ 8388607) :=
  shr8_in_int24_range.2 ⟨0, []⟩ (readOf [INT32_MIN, INT32_MAX])

/-- Instance of C9: two batches of one pair each. -/
theorem loop_split_batches_witness :
    [256, 512].length % 2 = 0 ∧
    loop (loop ⟨0, []⟩ (readOf [256, 512])) (readOf [768, 1024]) =
      loop ⟨0, []⟩ (readOf ([256, 512] ++ [768, 1024])) :=
  ⟨rfl, loop_split_batches ⟨0, []⟩ [256, 512] [768, 1024] rfl⟩

end GR86OS
